import Mathlib

/-!
Verification of the jscc AST-to-IR lowering engine and compilation pipeline.

The definitions below are a shallow embedding of the two source files
`crates/codegen/src/lib.rs` (the lowering engine) and `crates/cli/src/main.rs`
(the pipeline driver).  LLVM is modelled by an explicit module state: a list
of functions, the basic blocks of the root function (the only function that
ever receives blocks), the global byte buffers created for string literals,
and the builder's single insertion point.  Rust panics (`todo!`, `panic!`,
`unwrap` failures) are modelled as `Except.error` outcomes carrying the
abort kind.
-/

namespace Jscc

/-! ## IR data model -/

/-- IR types, mirroring the LLVM types the code constructs:
`LLVMVoidTypeInContext`, `LLVMInt1TypeInContext`, `LLVMInt32TypeInContext`,
`LLVMDoubleTypeInContext`, the pointer type produced by
`LLVMBuildGlobalStringPtr`, and `LLVMFunctionType`. -/
inductive Ty where
  | void
  | i1
  | i32
  | double
  | ptr
  | func (ret : Ty) (params : List Ty)

/-- IR values: integer constants (`LLVMConstInt`, carrying the type and the
truncated bit pattern), floating constants (`LLVMConstReal`, carrying the raw
64-bit payload, which the code passes through unchanged), pointers to string
globals (`LLVMBuildGlobalStringPtr`), and call-instruction results
(`LLVMBuildCall2`, tagged with a fresh id and the call's return type). -/
inductive Value where
  | constInt (ty : Ty) (bits : Nat)
  | constReal (bits : Nat)
  | strPtr (globalIdx : Nat)
  | callResult (id : Nat) (retTy : Ty)

/-- `LLVMTypeOf`. -/
def Value.typeOf : Value → Ty
  | .constInt ty _ => ty
  | .constReal _ => .double
  | .strPtr _ => .ptr
  | .callResult _ t => t

/-- Instructions emitted by the code: `LLVMBuildBr`, `LLVMBuildCondBr`,
`LLVMBuildCall2` (callee function index, the function type passed at the call
site, the argument values, the result id) and `LLVMBuildRetVoid`.
Branch targets are indices into the root function's block list. -/
inductive Instr where
  | br (target : Nat)
  | condBr (cond : Value) (ifTrue ifFalse : Nat)
  | call (callee : Nat) (fnTy : Ty) (args : List Value) (resultId : Nat)
  | retVoid

structure BasicBlock where
  name : String
  instrs : List Instr

inductive Linkage where
  | internalDefault
  | external

/-- A function of the module: name, type and linkage
(`LLVMAddFunction` / `LLVMSetLinkage`). -/
structure Func where
  name : String
  ty : Ty
  linkage : Linkage

/-- The LLVM state owned by `LLVMContext`: the module's functions, the basic
blocks of the root function (the only function given a body), the global
byte buffers, the builder's insertion point (an index into `blocks`), and an
id supply for instruction results. -/
structure St where
  funcs : List Func
  blocks : List BasicBlock
  globals : List (List Nat)
  insertion : Nat
  nextId : Nat

/-! ## Builder primitives -/

/-- Replace the element at index `n` (identity when out of range). -/
def modifyIdx : List α → Nat → (α → α) → List α
  | [], _, _ => []
  | a :: l, 0, f => f a :: l
  | a :: l, n+1, f => a :: modifyIdx l n f

/-- Append instructions to a block. -/
def appendInstrs (app : List Instr) (bb : BasicBlock) : BasicBlock :=
  ⟨bb.name, bb.instrs ++ app⟩

/-- `LLVMAppendBasicBlock` on the root function: returns the new block's
index and the grown state. -/
def appendBasicBlock (s : St) (name : String) : Nat × St :=
  (s.blocks.length, { s with blocks := s.blocks ++ [⟨name, []⟩] })

/-- `LLVMPositionBuilderAtEnd`. -/
def positionAtEnd (s : St) (b : Nat) : St :=
  { s with insertion := b }

/-- Emit one instruction at the insertion point (the `LLVMBuild*` calls). -/
def buildInstr (s : St) (i : Instr) : St :=
  { s with blocks := modifyIdx s.blocks s.insertion (appendInstrs [i]) }

/-- `LLVMGetNamedFunction`: index of the first function with this name. -/
def getNamedFunction : List Func → String → Option Nat
  | [], _ => none
  | f :: l, n => if f.name = n then some 0 else (getNamedFunction l n).map (· + 1)

/-- How many functions of the module carry a given name. -/
def countName (l : List Func) (n : String) : Nat :=
  (l.filter (fun f => f.name = n)).length

/-- Abort kinds for the panics the code can raise: `todo!()` on an
unimplemented AST arm, the `panic!("Unknown function identifier: ...")` on a
non-identifier callee, the `CString::new(...).unwrap()` failure on an interior
NUL byte, and an `Option::unwrap` on `None`. -/
inductive Err where
  | unsupportedConstruct
  | invalidCallTarget
  | nulInString
  | unwrapPanic

/-- `LLVMContext::create_string_literal`: converts the text to a C string
(panicking on an interior NUL byte) and calls `LLVMBuildGlobalStringPtr`,
which allocates a fresh null-terminated global buffer on every call and
returns a pointer to it. -/
def create_string_literal (s : St) (bytes : List Nat) : Except Err (Value × St) :=
  if bytes.contains 0 then .error .nulInString
  else .ok (.strPtr s.globals.length, { s with globals := s.globals ++ [bytes ++ [0]] })

/-- `LLVMContext::new("main")`: one function `main : void ()`, one empty
`entry` block, builder positioned at `entry`. -/
def initState : St :=
  { funcs := [⟨"main", .func .void [], .internalDefault⟩]
    blocks := [⟨"entry", []⟩]
    globals := []
    insertion := 0
    nextId := 0 }

/-! ## AST (the `boa_ast` subset the code matches on)

Payloads of arms the code immediately `todo!()`s on are dropped; interner
symbols are replaced by their resolved strings, and string literals carry
their UTF-8 bytes. `Literal::Num` carries an `f64` which the code passes
through unchanged to `LLVMConstReal`; it is modelled by its raw 64-bit
payload. `Literal::Int` carries an `i32`, modelled as an `Int`. -/

inductive Literal where
  | string (utf8 : List Nat)
  | num (bits : Nat)
  | int (n : Int)
  | bigInt
  | bool (b : Bool)
  | nullLit
  | undefined

mutual
inductive Expression where
  | this
  | identifier (name : String)
  | literal (l : Literal)
  | regExpLiteral
  | arrayLiteral
  | objectLiteral
  | spread
  | functionExpression
  | arrowFunction
  | templateLiteral
  | propertyAccess
  | newExpr
  | call (callee : Expression) (args : ExprList)
  | assign
  | unary
  | binary
  | conditional
  | parenthesized (e : Expression)
  | otherExpr

inductive ExprList where
  | nil
  | cons (e : Expression) (rest : ExprList)
end

mutual
inductive Statement where
  | block (items : StmtItems)
  | var
  | empty
  | expression (e : Expression)
  | ifStmt
  | doWhileLoop
  | whileLoop (cond : Expression) (body : Statement)
  | forLoop
  | forInLoop
  | forOfLoop
  | switch
  | continueStmt
  | breakStmt
  | returnStmt
  | labelled
  | throwStmt
  | tryStmt
  | withStmt

inductive StmtItems where
  | nil
  | consStmt (s : Statement) (rest : StmtItems)
  | consDecl (rest : StmtItems)
end

inductive ModuleItem where
  | importDeclaration
  | exportDeclaration
  | stmt (s : Statement)
  | decl

/-- The Rust cast `*n as u64` applied to the `i32` literal payload. -/
def intAsU64 (n : Int) : Nat :=
  (n % 18446744073709551616).toNat

/-! ## The lowering engine (`CodeGenerator`) -/

mutual
/-- `CodeGenerator::compile_expression`.  Literal arms mirror lines 116-138
of `codegen/src/lib.rs`; the call arm mirrors lines 153-205; every other arm
is a `todo!()`. -/
def compile_expression : Expression → St → Except Err (Option Value × St)
  | .this, _ => .error .unsupportedConstruct
  | .identifier _, _ => .error .unsupportedConstruct
  | .literal l, s =>
    match l with
    | .string bytes =>
      match create_string_literal s bytes with
      | .error e => .error e
      | .ok (v, s') => .ok (some v, s')
    | .num bits => .ok (some (.constReal bits), s)
    | .int n => .ok (some (.constInt .i32 (intAsU64 n % 4294967296)), s)
    | .bigInt => .error .unsupportedConstruct
    | .bool b => .ok (some (.constInt .i1 (if b then 1 else 0)), s)
    | .nullLit => .error .unsupportedConstruct
    | .undefined => .error .unsupportedConstruct
  | .regExpLiteral, _ => .error .unsupportedConstruct
  | .arrayLiteral, _ => .error .unsupportedConstruct
  | .objectLiteral, _ => .error .unsupportedConstruct
  | .spread, _ => .error .unsupportedConstruct
  | .functionExpression, _ => .error .unsupportedConstruct
  | .arrowFunction, _ => .error .unsupportedConstruct
  | .templateLiteral, _ => .error .unsupportedConstruct
  | .propertyAccess, _ => .error .unsupportedConstruct
  | .newExpr, _ => .error .unsupportedConstruct
  | .call callee args, s =>
    match callee with
    | .identifier name =>
      match compile_args args s with
      | .error e => .error e
      | .ok (vs, s1) =>
        let fnTy := Ty.func .i32 (vs.map Value.typeOf)
        match getNamedFunction s1.funcs name with
        | none =>
          let s2 : St := { s1 with funcs := s1.funcs ++ [⟨name, fnTy, .external⟩] }
          .ok (some (.callResult s2.nextId .i32),
               buildInstr { s2 with nextId := s2.nextId + 1 }
                 (.call s1.funcs.length fnTy vs s2.nextId))
        | some i =>
          .ok (some (.callResult s1.nextId .i32),
               buildInstr { s1 with nextId := s1.nextId + 1 }
                 (.call i fnTy vs s1.nextId))
    | _ => .error .invalidCallTarget
  | .assign, _ => .error .unsupportedConstruct
  | .unary, _ => .error .unsupportedConstruct
  | .binary, _ => .error .unsupportedConstruct
  | .conditional, _ => .error .unsupportedConstruct
  | .parenthesized _, _ => .error .unsupportedConstruct
  | .otherExpr, _ => .error .unsupportedConstruct

/-- The argument loop of the call arm: each argument is lowered
left-to-right and `unwrap`ped. -/
def compile_args : ExprList → St → Except Err (List Value × St)
  | .nil, s => .ok ([], s)
  | .cons e rest, s =>
    match compile_expression e s with
    | .error err => .error err
    | .ok (v, s1) =>
      match v with
      | none => .error .unwrapPanic
      | some v =>
        match compile_args rest s1 with
        | .error err => .error err
        | .ok (vs, s2) => .ok (v :: vs, s2)
end

mutual
/-- `CodeGenerator::compile_statement` (lines 225-295 of
`codegen/src/lib.rs`). -/
def compile_statement : Statement → St → Except Err (Option Value × St)
  | .block items, s =>
    match compile_items items s with
    | .error e => .error e
    | .ok s' => .ok (none, s')
  | .var, _ => .error .unsupportedConstruct
  | .empty, _ => .error .unsupportedConstruct
  | .expression e, s => compile_expression e s
  | .ifStmt, _ => .error .unsupportedConstruct
  | .doWhileLoop, _ => .error .unsupportedConstruct
  | .whileLoop cond body, s =>
    let (condBlk, s1) := appendBasicBlock s "condition"
    let (bodyBlk, s2) := appendBasicBlock s1 "body"
    let (endBlk, s3) := appendBasicBlock s2 "end"
    let s4 := buildInstr s3 (.br condBlk)
    let s5 := positionAtEnd s4 condBlk
    match compile_expression cond s5 with
    | .error e => .error e
    | .ok (c, s6) =>
      match c with
      | none => .error .unwrapPanic
      | some c =>
        let s7 := buildInstr s6 (.condBr c bodyBlk endBlk)
        let s8 := positionAtEnd s7 bodyBlk
        match compile_statement body s8 with
        | .error e => .error e
        | .ok (_, s9) =>
          let s10 := buildInstr s9 (.br condBlk)
          .ok (none, positionAtEnd s10 endBlk)
  | .forLoop, _ => .error .unsupportedConstruct
  | .forInLoop, _ => .error .unsupportedConstruct
  | .forOfLoop, _ => .error .unsupportedConstruct
  | .switch, _ => .error .unsupportedConstruct
  | .continueStmt, _ => .error .unsupportedConstruct
  | .breakStmt, _ => .error .unsupportedConstruct
  | .returnStmt, _ => .error .unsupportedConstruct
  | .labelled, _ => .error .unsupportedConstruct
  | .throwStmt, _ => .error .unsupportedConstruct
  | .tryStmt, _ => .error .unsupportedConstruct
  | .withStmt, _ => .error .unsupportedConstruct

/-- The statement-list loop of the block arm; a declaration item hits a
`todo!()`. -/
def compile_items : StmtItems → St → Except Err St
  | .nil, s => .ok s
  | .consStmt st rest, s =>
    match compile_statement st s with
    | .error e => .error e
    | .ok (_, s1) => compile_items rest s1
  | .consDecl _, _ => .error .unsupportedConstruct
end

/-- `CodeGenerator::compile_module_item`. -/
def compile_module_item : ModuleItem → St → Except Err (Option Value × St)
  | .importDeclaration, _ => .error .unsupportedConstruct
  | .exportDeclaration, _ => .error .unsupportedConstruct
  | .stmt st, s => compile_statement st s
  | .decl, _ => .error .unsupportedConstruct

/-- The lowering loop of `main` over the parsed module's items. -/
def compile_module_items : List ModuleItem → St → Except Err St
  | [], s => .ok s
  | mi :: rest, s =>
    match compile_module_item mi s with
    | .error e => .error e
    | .ok (_, s1) => compile_module_items rest s1

/-! ## The pipeline driver (`cli/src/main.rs`) -/

/-- A path, as far as `PathBuf::set_extension` is concerned: a base and an
optional extension. -/
structure FilePath' where
  base : String
  ext : Option String

def FilePath'.setExtension (p : FilePath') (e : String) : FilePath' :=
  { p with ext := some e }

def FilePath'.render (p : FilePath') : String :=
  p.base ++ (match p.ext with | some e => "." ++ e | none => "")

/-- The clap-parsed command line. -/
structure Cli where
  input_file : FilePath'
  output_file : Option FilePath'
  target : Option String
  linker : Option String
  verbose : Bool

/-- The outcomes of the external effects `main` performs, supplied as an
oracle: the host's default triple, which triples resolve
(`LLVMGetTargetFromTriple`), whether the module verifier reports a failure
(`LLVMVerifyModule`), whether object emission succeeds
(`LLVMTargetMachineEmitToFile`), and whether the linker process exits
successfully. -/
structure World where
  defaultTriple : String
  targetResolves : String → Bool
  verifyFails : Bool
  emitSucceeds : Bool
  linkerSucceeds : Bool

/-- Observable record of one pipeline run past lowering: the module after
the final `LLVMBuildRetVoid`, whether the verifier printed a diagnostic,
the path of the successfully emitted object (if any), the linker command
that was spawned (program and argument list, if any), and `main`'s result. -/
structure PipeRecord where
  finalModule : St
  verifierMessagePrinted : Bool
  emittedObject : Option FilePath'
  linkerCmd : Option (String × List String)
  exit : Except String Unit

/-- `main` after successful lowering (lines 46-138 of `cli/src/main.rs`):
ret-void terminator, verification (print only), target resolution, object
emission to the output path defaulted with extension `o`, then optional
linking against the output path defaulted with extension `out`. -/
def runLowered (args : Cli) (w : World) (st : St) : PipeRecord :=
  let stR := buildInstr st .retVoid
  let printed := w.verifyFails
  let triple := args.target.getD w.defaultTriple
  if w.targetResolves triple = false then
    ⟨stR, printed, none, none, .error "Failed to get target from triple"⟩
  else
    let objPath := args.output_file.getD (args.input_file.setExtension "o")
    if w.emitSucceeds = false then
      ⟨stR, printed, none, none, .error "Failed to emit object file"⟩
    else
      match args.linker with
      | none => ⟨stR, printed, some objPath, none, .ok ()⟩
      | some l =>
        let linkPath := args.output_file.getD (args.input_file.setExtension "out")
        let cmd := (l, [linkPath.render, "-o", linkPath.render])
        if w.linkerSucceeds then ⟨stR, printed, some objPath, some cmd, .ok ()⟩
        else ⟨stR, printed, some objPath, some cmd, .error "Failed to link object file"⟩

/-- A whole run of `main` on an already-parsed module: a lowering panic
aborts the process before any emission; otherwise the pipeline runs. -/
inductive Outcome where
  | panicked (e : Err)
  | finished (r : PipeRecord)

def mainRun (args : Cli) (w : World) (items : List ModuleItem) : Outcome :=
  match compile_module_items items initState with
  | .error e => .panicked e
  | .ok st => .finished (runLowered args w st)


/-! ## Spec-side readers -/

/-- Read a 32-bit constant's bit pattern back as a signed integer. -/
def asSigned32 (bits : Nat) : Int :=
  if bits < 2147483648 then (bits : Int) else (bits : Int) - 4294967296

/-- Whether an expression is a plain identifier (the only accepted callee
form). -/
def Expression.isIdentifier : Expression → Bool
  | .identifier _ => true
  | _ => false

/-! ## List-surgery lemmas -/

theorem length_modifyIdx (l : List α) (n : Nat) (f : α → α) :
    (modifyIdx l n f).length = l.length := by
  induction l generalizing n with
  | nil => rfl
  | cons a l ih =>
    cases n with
    | zero => simp [modifyIdx]
    | succ m => simp [modifyIdx, ih]

theorem modifyIdx_congr (l : List α) (n : Nat) {f g : α → α}
    (h : ∀ a, f a = g a) : modifyIdx l n f = modifyIdx l n g := by
  induction l generalizing n with
  | nil => rfl
  | cons a l ih =>
    cases n with
    | zero => simp [modifyIdx, h]
    | succ m => simp [modifyIdx, ih]

theorem modifyIdx_id (l : List α) (n : Nat) {f : α → α}
    (h : ∀ a, f a = a) : modifyIdx l n f = l := by
  induction l generalizing n with
  | nil => rfl
  | cons a l ih =>
    cases n with
    | zero => simp [modifyIdx, h]
    | succ m => simp [modifyIdx, ih]

theorem modifyIdx_append_left (l t : List α) (n : Nat) (f : α → α)
    (h : n < l.length) : modifyIdx (l ++ t) n f = modifyIdx l n f ++ t := by
  induction l generalizing n with
  | nil => simp at h
  | cons a l ih =>
    cases n with
    | zero => simp [modifyIdx]
    | succ m =>
      simp only [List.length_cons, Nat.succ_lt_succ_iff] at h
      simp [modifyIdx, ih _ h]

theorem modifyIdx_append_right (l t : List α) (n : Nat) (f : α → α)
    (h : l.length ≤ n) : modifyIdx (l ++ t) n f = l ++ modifyIdx t (n - l.length) f := by
  induction l generalizing n with
  | nil => simp
  | cons a l ih =>
    cases n with
    | zero => simp at h
    | succ m =>
      simp only [List.length_cons, Nat.succ_le_succ_iff] at h
      simp [modifyIdx, ih _ h, Nat.succ_sub_succ]

theorem modifyIdx_modifyIdx (l : List α) (n : Nat) (f g : α → α) :
    modifyIdx (modifyIdx l n f) n g = modifyIdx l n (fun a => g (f a)) := by
  induction l generalizing n with
  | nil => rfl
  | cons a l ih =>
    cases n with
    | zero => simp [modifyIdx]
    | succ m => simp [modifyIdx, ih]

theorem getIdx_modifyIdx_ne (l : List α) (n i : Nat) (f : α → α)
    (h : i ≠ n) : (modifyIdx l n f)[i]? = l[i]? := by
  induction l generalizing n i with
  | nil => rfl
  | cons a l ih =>
    cases n with
    | zero =>
      cases i with
      | zero => exact absurd rfl h
      | succ j => simp [modifyIdx]
    | succ m =>
      cases i with
      | zero => simp [modifyIdx]
      | succ j =>
        simp only [modifyIdx, List.getElem?_cons_succ]
        exact ih m j (fun hh => h (by omega))

theorem getIdx_modifyIdx_self (l : List α) (n : Nat) (f : α → α) :
    (modifyIdx l n f)[n]? = (l[n]?).map f := by
  induction l generalizing n with
  | nil => rfl
  | cons a l ih =>
    cases n with
    | zero => simp [modifyIdx]
    | succ m => simp [modifyIdx, ih]

theorem getIdx_append_left (l t : List α) (i : Nat) (h : i < l.length) :
    (l ++ t)[i]? = l[i]? := by
  induction l generalizing i with
  | nil => simp at h
  | cons a l ih =>
    cases i with
    | zero => simp
    | succ j =>
      simp only [List.length_cons, Nat.succ_lt_succ_iff] at h
      simp [ih _ h]

theorem getIdx_append_right (l t : List α) (i : Nat) (h : l.length ≤ i) :
    (l ++ t)[i]? = t[i - l.length]? := by
  induction l generalizing i with
  | nil => simp
  | cons a l ih =>
    cases i with
    | zero => simp at h
    | succ j =>
      simp only [List.length_cons, Nat.succ_le_succ_iff] at h
      simp [ih _ h, Nat.succ_sub_succ]

theorem getLast_append_singleton (l : List α) (a : α) :
    (l ++ [a]).getLast? = some a := by
  induction l with
  | nil => rfl
  | cons b l ih =>
    rw [List.cons_append, List.getLast?_cons, ih]
    simp

/-! ## Symbol-table lemmas -/

theorem countName_cons (f : Func) (l : List Func) (n : String) :
    countName (f :: l) n = (if f.name = n then 1 else 0) + countName l n := by
  simp only [countName, List.filter]
  split <;> rename_i h
  · simp_all; omega
  · simp_all

theorem countName_append (l t : List Func) (n : String) :
    countName (l ++ t) n = countName l n + countName t n := by
  simp [countName, List.filter_append]

theorem gnf_none_count (l : List Func) (n : String)
    (h : getNamedFunction l n = none) : countName l n = 0 := by
  induction l with
  | nil => rfl
  | cons f l ih =>
    rw [getNamedFunction] at h
    split at h
    · exact absurd h (by simp)
    · rename_i hne
      simp only [Option.map_eq_none'] at h
      rw [countName_cons, if_neg hne, ih h]

theorem count_zero_gnf (l : List Func) (n : String)
    (h : countName l n = 0) : getNamedFunction l n = none := by
  induction l with
  | nil => rfl
  | cons f l ih =>
    rw [countName_cons] at h
    rw [getNamedFunction]
    split
    · rename_i he; rw [if_pos he] at h; omega
    · rename_i hne
      rw [if_neg hne, Nat.zero_add] at h
      rw [ih h]; rfl

theorem gnf_append_some (l t : List Func) (n : String) (i : Nat)
    (h : getNamedFunction l n = some i) : getNamedFunction (l ++ t) n = some i := by
  induction l generalizing i with
  | nil => exact absurd h (by simp [getNamedFunction])
  | cons f l ih =>
    rw [List.cons_append]
    rw [getNamedFunction] at h ⊢
    split at h <;> rename_i hcase
    · rw [if_pos hcase]; exact h
    · rw [if_neg hcase]
      cases hg : getNamedFunction l n with
      | none => rw [hg] at h; simp at h
      | some j =>
        rw [hg] at h
        simp only [Option.map_some'] at h
        rw [ih j hg]
        simpa using h

theorem gnf_append_self (l : List Func) (n : String) (ty : Ty) (lk : Linkage)
    (h : getNamedFunction l n = none) :
    getNamedFunction (l ++ [⟨n, ty, lk⟩]) n = some l.length := by
  induction l with
  | nil => simp [getNamedFunction]
  | cons f l ih =>
    rw [getNamedFunction] at h
    split at h <;> rename_i hcase
    · exact absurd h (by simp)
    · simp only [Option.map_eq_none'] at h
      rw [List.cons_append, getNamedFunction, if_neg hcase, ih h]
      rfl


/-! ## Expression-level invariants

Expressions never create blocks and never move the insertion point: they
only append instructions to the current block (and may add globals and
function declarations). -/

/-- Blocks-and-insertion effect of an expression lowering step. -/
def FrameE (s s' : St) : Prop :=
  s'.insertion = s.insertion ∧
  ∃ app, s'.blocks = modifyIdx s.blocks s.insertion (appendInstrs app)

theorem frameE_of_eq {s s' : St} (hi : s'.insertion = s.insertion)
    (hb : s'.blocks = s.blocks) : FrameE s s' := by
  refine ⟨hi, [], ?_⟩
  rw [hb, modifyIdx_id]
  intro bb
  simp [appendInstrs]

theorem frameE_trans {s s1 s2 : St} (h1 : FrameE s s1) (h2 : FrameE s1 s2) :
    FrameE s s2 := by
  obtain ⟨hi1, a, hb1⟩ := h1
  obtain ⟨hi2, b, hb2⟩ := h2
  refine ⟨hi2.trans hi1, a ++ b, ?_⟩
  rw [hb2, hi1, hb1, modifyIdx_modifyIdx]
  exact modifyIdx_congr _ _ (fun bb => by simp [appendInstrs])

theorem frameE_buildInstr (s : St) (i : Instr) : FrameE s (buildInstr s i) :=
  ⟨rfl, [i], rfl⟩

mutual
theorem compile_expression_frame : ∀ (e : Expression) (s : St) (v : Option Value)
    (s' : St), compile_expression e s = .ok (v, s') → FrameE s s' := by
  intro e s v s' h
  cases e with
  | literal l =>
    cases l with
    | string bytes =>
      rw [compile_expression, create_string_literal] at h
      by_cases hc : bytes.contains 0 = true
      · rw [if_pos hc] at h; exact absurd h (by simp)
      · rw [if_neg hc] at h
        simp only [Except.ok.injEq, Prod.mk.injEq] at h
        refine frameE_of_eq ?_ ?_ <;> rw [← h.2]
    | num bits =>
      rw [compile_expression] at h
      simp only [Except.ok.injEq, Prod.mk.injEq] at h
      exact frameE_of_eq (by rw [← h.2]) (by rw [← h.2])
    | int n =>
      rw [compile_expression] at h
      simp only [Except.ok.injEq, Prod.mk.injEq] at h
      exact frameE_of_eq (by rw [← h.2]) (by rw [← h.2])
    | bigInt => exact Except.noConfusion h
    | bool b =>
      rw [compile_expression] at h
      simp only [Except.ok.injEq, Prod.mk.injEq] at h
      exact frameE_of_eq (by rw [← h.2]) (by rw [← h.2])
    | nullLit => exact Except.noConfusion h
    | undefined => exact Except.noConfusion h
  | call callee args =>
    cases callee with
    | identifier name =>
      rw [compile_expression] at h
      split at h
      · exact Except.noConfusion h
      · rename_i vs s1 ha
        have hf1 := compile_args_frame args s vs s1 ha
        split at h
        · simp only [Except.ok.injEq, Prod.mk.injEq] at h
          refine frameE_trans hf1 ?_
          rw [← h.2]
          exact ⟨rfl, [_], rfl⟩
        · simp only [Except.ok.injEq, Prod.mk.injEq] at h
          refine frameE_trans hf1 ?_
          rw [← h.2]
          exact ⟨rfl, [_], rfl⟩
    | this => exact Except.noConfusion h
    | literal l => exact Except.noConfusion h
    | regExpLiteral => exact Except.noConfusion h
    | arrayLiteral => exact Except.noConfusion h
    | objectLiteral => exact Except.noConfusion h
    | spread => exact Except.noConfusion h
    | functionExpression => exact Except.noConfusion h
    | arrowFunction => exact Except.noConfusion h
    | templateLiteral => exact Except.noConfusion h
    | propertyAccess => exact Except.noConfusion h
    | newExpr => exact Except.noConfusion h
    | call c a => exact Except.noConfusion h
    | assign => exact Except.noConfusion h
    | unary => exact Except.noConfusion h
    | binary => exact Except.noConfusion h
    | conditional => exact Except.noConfusion h
    | parenthesized e => exact Except.noConfusion h
    | otherExpr => exact Except.noConfusion h
  | this => exact Except.noConfusion h
  | identifier nm => exact Except.noConfusion h
  | regExpLiteral => exact Except.noConfusion h
  | arrayLiteral => exact Except.noConfusion h
  | objectLiteral => exact Except.noConfusion h
  | spread => exact Except.noConfusion h
  | functionExpression => exact Except.noConfusion h
  | arrowFunction => exact Except.noConfusion h
  | templateLiteral => exact Except.noConfusion h
  | propertyAccess => exact Except.noConfusion h
  | newExpr => exact Except.noConfusion h
  | assign => exact Except.noConfusion h
  | unary => exact Except.noConfusion h
  | binary => exact Except.noConfusion h
  | conditional => exact Except.noConfusion h
  | parenthesized e => exact Except.noConfusion h
  | otherExpr => exact Except.noConfusion h

theorem compile_args_frame : ∀ (es : ExprList) (s : St) (vs : List Value)
    (s' : St), compile_args es s = .ok (vs, s') → FrameE s s' := by
  intro es s vs s' h
  cases es with
  | nil =>
    rw [compile_args] at h
    simp only [Except.ok.injEq, Prod.mk.injEq] at h
    exact frameE_of_eq (by rw [← h.2]) (by rw [← h.2])
  | cons e rest =>
    rw [compile_args] at h
    cases he : compile_expression e s with
    | error err => rw [he] at h; exact absurd h (by simp)
    | ok p =>
      obtain ⟨v, s1⟩ := p
      rw [he] at h
      cases v with
      | none => exact absurd h (by simp)
      | some v =>
        cases hr : compile_args rest s1 with
        | error err => simp only [hr] at h; exact absurd h (by simp)
        | ok q =>
          obtain ⟨vs2, s2⟩ := q
          simp only [hr, Except.ok.injEq, Prod.mk.injEq] at h
          have h1 := compile_expression_frame e s (some v) s1 he
          have h2 := compile_args_frame rest s1 vs2 s2 hr
          rw [← h.2]
          exact frameE_trans h1 h2
end

/-! ## Function-declaration effects

A lowering step only appends declarations, and it never adds a function
under a name that is already declared: each name's declaration count either
stays unchanged or rises from zero to one. -/

def FuncsOk (s s' : St) : Prop :=
  (∃ ext, s'.funcs = s.funcs ++ ext) ∧
  ∀ n, countName s'.funcs n = countName s.funcs n ∨
       (countName s.funcs n = 0 ∧ countName s'.funcs n = 1)

theorem funcsOk_of_eq {s s' : St} (hf : s'.funcs = s.funcs) : FuncsOk s s' :=
  ⟨⟨[], by simp [hf]⟩, fun n => .inl (by rw [hf])⟩

theorem funcsOk_trans {s s1 s2 : St} (h1 : FuncsOk s s1) (h2 : FuncsOk s1 s2) :
    FuncsOk s s2 := by
  obtain ⟨⟨e1, he1⟩, c1⟩ := h1
  obtain ⟨⟨e2, he2⟩, c2⟩ := h2
  refine ⟨⟨e1 ++ e2, by rw [he2, he1, List.append_assoc]⟩, fun n => ?_⟩
  rcases c1 n with hA | ⟨hA0, hA1⟩ <;> rcases c2 n with hB | ⟨hB0, hB1⟩ <;> omega

mutual
theorem compile_expression_funcs : ∀ (e : Expression) (s : St) (v : Option Value)
    (s' : St), compile_expression e s = .ok (v, s') → FuncsOk s s' := by
  intro e s v s' h
  cases e with
  | literal l =>
    cases l with
    | string bytes =>
      rw [compile_expression, create_string_literal] at h
      by_cases hc : bytes.contains 0 = true
      · rw [if_pos hc] at h; exact absurd h (by simp)
      · rw [if_neg hc] at h
        simp only [Except.ok.injEq, Prod.mk.injEq] at h
        exact funcsOk_of_eq (by rw [← h.2])
    | num bits =>
      rw [compile_expression] at h
      simp only [Except.ok.injEq, Prod.mk.injEq] at h
      exact funcsOk_of_eq (by rw [← h.2])
    | int n =>
      rw [compile_expression] at h
      simp only [Except.ok.injEq, Prod.mk.injEq] at h
      exact funcsOk_of_eq (by rw [← h.2])
    | bigInt => exact Except.noConfusion h
    | bool b =>
      rw [compile_expression] at h
      simp only [Except.ok.injEq, Prod.mk.injEq] at h
      exact funcsOk_of_eq (by rw [← h.2])
    | nullLit => exact Except.noConfusion h
    | undefined => exact Except.noConfusion h
  | call callee args =>
    cases callee with
    | identifier name =>
      rw [compile_expression] at h
      split at h
      · exact Except.noConfusion h
      · rename_i vs s1 ha
        have hf1 := compile_args_funcs args s vs s1 ha
        split at h
        · rename_i hg
          simp only [Except.ok.injEq, Prod.mk.injEq] at h
          refine funcsOk_trans hf1 ?_
          rw [← h.2]
          refine ⟨⟨[⟨name, Ty.func .i32 (vs.map Value.typeOf), .external⟩], rfl⟩, fun n => ?_⟩
          rw [show (buildInstr { s1 with
                funcs := s1.funcs ++ [⟨name, Ty.func .i32 (vs.map Value.typeOf), .external⟩],
                nextId := s1.nextId + 1 }
                (Instr.call s1.funcs.length (Ty.func .i32 (vs.map Value.typeOf)) vs s1.nextId)).funcs
              = s1.funcs ++ [⟨name, Ty.func .i32 (vs.map Value.typeOf), .external⟩] from rfl]
          rw [countName_append]
          by_cases hn : name = n
          · subst hn
            have h0 := gnf_none_count _ _ hg
            right
            refine ⟨h0, ?_⟩
            rw [h0, countName_cons]
            simp [countName]
          · left
            rw [countName_cons]
            simp only [if_neg hn]
            rfl
        · rename_i i hg
          simp only [Except.ok.injEq, Prod.mk.injEq] at h
          refine funcsOk_trans hf1 ?_
          exact funcsOk_of_eq (by rw [← h.2]; rfl)
    | this => exact Except.noConfusion h
    | literal l => exact Except.noConfusion h
    | regExpLiteral => exact Except.noConfusion h
    | arrayLiteral => exact Except.noConfusion h
    | objectLiteral => exact Except.noConfusion h
    | spread => exact Except.noConfusion h
    | functionExpression => exact Except.noConfusion h
    | arrowFunction => exact Except.noConfusion h
    | templateLiteral => exact Except.noConfusion h
    | propertyAccess => exact Except.noConfusion h
    | newExpr => exact Except.noConfusion h
    | call c a => exact Except.noConfusion h
    | assign => exact Except.noConfusion h
    | unary => exact Except.noConfusion h
    | binary => exact Except.noConfusion h
    | conditional => exact Except.noConfusion h
    | parenthesized e => exact Except.noConfusion h
    | otherExpr => exact Except.noConfusion h
  | this => exact Except.noConfusion h
  | identifier nm => exact Except.noConfusion h
  | regExpLiteral => exact Except.noConfusion h
  | arrayLiteral => exact Except.noConfusion h
  | objectLiteral => exact Except.noConfusion h
  | spread => exact Except.noConfusion h
  | functionExpression => exact Except.noConfusion h
  | arrowFunction => exact Except.noConfusion h
  | templateLiteral => exact Except.noConfusion h
  | propertyAccess => exact Except.noConfusion h
  | newExpr => exact Except.noConfusion h
  | assign => exact Except.noConfusion h
  | unary => exact Except.noConfusion h
  | binary => exact Except.noConfusion h
  | conditional => exact Except.noConfusion h
  | parenthesized e => exact Except.noConfusion h
  | otherExpr => exact Except.noConfusion h

theorem compile_args_funcs : ∀ (es : ExprList) (s : St) (vs : List Value)
    (s' : St), compile_args es s = .ok (vs, s') → FuncsOk s s' := by
  intro es s vs s' h
  cases es with
  | nil =>
    rw [compile_args] at h
    simp only [Except.ok.injEq, Prod.mk.injEq] at h
    exact funcsOk_of_eq (by rw [← h.2])
  | cons e rest =>
    rw [compile_args] at h
    split at h
    · exact Except.noConfusion h
    · rename_i v s1 he
      split at h
      · exact Except.noConfusion h
      · rename_i v2
        split at h
        · exact Except.noConfusion h
        · rename_i vs2 s2 hr
          simp only [Except.ok.injEq, Prod.mk.injEq] at h
          have h1 := compile_expression_funcs e s _ s1 he
          have h2 := compile_args_funcs rest s1 vs2 s2 hr
          rw [← h.2]
          exact funcsOk_trans h1 h2
end



/-! ## Totality of expression lowering

Every arm of `compile_expression` that returns normally returns `Some`
value, so the `unwrap` on each lowered call argument (and on the while
predicate) can never be reached with `None`. -/

theorem compile_expression_some : ∀ (e : Expression) (s : St) (v : Option Value)
    (s' : St), compile_expression e s = .ok (v, s') → v.isSome = true := by
  intro e s v s' h
  cases e with
  | literal l =>
    cases l with
    | string bytes =>
      rw [compile_expression, create_string_literal] at h
      by_cases hc : bytes.contains 0 = true
      · rw [if_pos hc] at h; exact absurd h (by simp)
      · rw [if_neg hc] at h
        simp only [Except.ok.injEq, Prod.mk.injEq] at h
        rw [← h.1]; rfl
    | num bits =>
      rw [compile_expression] at h
      simp only [Except.ok.injEq, Prod.mk.injEq] at h
      rw [← h.1]; rfl
    | int n =>
      rw [compile_expression] at h
      simp only [Except.ok.injEq, Prod.mk.injEq] at h
      rw [← h.1]; rfl
    | bigInt => exact Except.noConfusion h
    | bool b =>
      rw [compile_expression] at h
      simp only [Except.ok.injEq, Prod.mk.injEq] at h
      rw [← h.1]; rfl
    | nullLit => exact Except.noConfusion h
    | undefined => exact Except.noConfusion h
  | call callee args =>
    cases callee with
    | identifier name =>
      rw [compile_expression] at h
      split at h
      · exact Except.noConfusion h
      · split at h
        · simp only [Except.ok.injEq, Prod.mk.injEq] at h
          rw [← h.1]; rfl
        · simp only [Except.ok.injEq, Prod.mk.injEq] at h
          rw [← h.1]; rfl
    | this => exact Except.noConfusion h
    | literal l => exact Except.noConfusion h
    | regExpLiteral => exact Except.noConfusion h
    | arrayLiteral => exact Except.noConfusion h
    | objectLiteral => exact Except.noConfusion h
    | spread => exact Except.noConfusion h
    | functionExpression => exact Except.noConfusion h
    | arrowFunction => exact Except.noConfusion h
    | templateLiteral => exact Except.noConfusion h
    | propertyAccess => exact Except.noConfusion h
    | newExpr => exact Except.noConfusion h
    | call c a => exact Except.noConfusion h
    | assign => exact Except.noConfusion h
    | unary => exact Except.noConfusion h
    | binary => exact Except.noConfusion h
    | conditional => exact Except.noConfusion h
    | parenthesized e => exact Except.noConfusion h
    | otherExpr => exact Except.noConfusion h
  | this => exact Except.noConfusion h
  | identifier nm => exact Except.noConfusion h
  | regExpLiteral => exact Except.noConfusion h
  | arrayLiteral => exact Except.noConfusion h
  | objectLiteral => exact Except.noConfusion h
  | spread => exact Except.noConfusion h
  | functionExpression => exact Except.noConfusion h
  | arrowFunction => exact Except.noConfusion h
  | templateLiteral => exact Except.noConfusion h
  | propertyAccess => exact Except.noConfusion h
  | newExpr => exact Except.noConfusion h
  | assign => exact Except.noConfusion h
  | unary => exact Except.noConfusion h
  | binary => exact Except.noConfusion h
  | conditional => exact Except.noConfusion h
  | parenthesized e => exact Except.noConfusion h
  | otherExpr => exact Except.noConfusion h

mutual
theorem compile_expression_no_unwrap : ∀ (e : Expression) (s : St),
    compile_expression e s ≠ .error .unwrapPanic := by
  intro e s h
  cases e with
  | literal l =>
    cases l with
    | string bytes =>
      rw [compile_expression, create_string_literal] at h
      by_cases hc : bytes.contains 0 = true
      · rw [if_pos hc] at h
        exact Err.noConfusion (Except.error.inj h)
      · rw [if_neg hc] at h
        exact Except.noConfusion h
    | num bits => exact Except.noConfusion h
    | int n => exact Except.noConfusion h
    | bigInt => exact Err.noConfusion (Except.error.inj h)
    | bool b => exact Except.noConfusion h
    | nullLit => exact Err.noConfusion (Except.error.inj h)
    | undefined => exact Err.noConfusion (Except.error.inj h)
  | call callee args =>
    cases callee with
    | identifier name =>
      rw [compile_expression] at h
      split at h
      · rename_i e2 he
        rw [Except.error.inj h] at he
        exact compile_args_no_unwrap args s he
      · split at h
        · exact Except.noConfusion h
        · exact Except.noConfusion h
    | this => exact Err.noConfusion (Except.error.inj h)
    | literal l => exact Err.noConfusion (Except.error.inj h)
    | regExpLiteral => exact Err.noConfusion (Except.error.inj h)
    | arrayLiteral => exact Err.noConfusion (Except.error.inj h)
    | objectLiteral => exact Err.noConfusion (Except.error.inj h)
    | spread => exact Err.noConfusion (Except.error.inj h)
    | functionExpression => exact Err.noConfusion (Except.error.inj h)
    | arrowFunction => exact Err.noConfusion (Except.error.inj h)
    | templateLiteral => exact Err.noConfusion (Except.error.inj h)
    | propertyAccess => exact Err.noConfusion (Except.error.inj h)
    | newExpr => exact Err.noConfusion (Except.error.inj h)
    | call c a => exact Err.noConfusion (Except.error.inj h)
    | assign => exact Err.noConfusion (Except.error.inj h)
    | unary => exact Err.noConfusion (Except.error.inj h)
    | binary => exact Err.noConfusion (Except.error.inj h)
    | conditional => exact Err.noConfusion (Except.error.inj h)
    | parenthesized e => exact Err.noConfusion (Except.error.inj h)
    | otherExpr => exact Err.noConfusion (Except.error.inj h)
  | this => exact Err.noConfusion (Except.error.inj h)
  | identifier nm => exact Err.noConfusion (Except.error.inj h)
  | regExpLiteral => exact Err.noConfusion (Except.error.inj h)
  | arrayLiteral => exact Err.noConfusion (Except.error.inj h)
  | objectLiteral => exact Err.noConfusion (Except.error.inj h)
  | spread => exact Err.noConfusion (Except.error.inj h)
  | functionExpression => exact Err.noConfusion (Except.error.inj h)
  | arrowFunction => exact Err.noConfusion (Except.error.inj h)
  | templateLiteral => exact Err.noConfusion (Except.error.inj h)
  | propertyAccess => exact Err.noConfusion (Except.error.inj h)
  | newExpr => exact Err.noConfusion (Except.error.inj h)
  | assign => exact Err.noConfusion (Except.error.inj h)
  | unary => exact Err.noConfusion (Except.error.inj h)
  | binary => exact Err.noConfusion (Except.error.inj h)
  | conditional => exact Err.noConfusion (Except.error.inj h)
  | parenthesized e => exact Err.noConfusion (Except.error.inj h)
  | otherExpr => exact Err.noConfusion (Except.error.inj h)

theorem compile_args_no_unwrap : ∀ (es : ExprList) (s : St),
    compile_args es s ≠ .error .unwrapPanic := by
  intro es s h
  cases es with
  | nil => exact Except.noConfusion h
  | cons e rest =>
    rw [compile_args] at h
    split at h
    · rename_i err he
      rw [Except.error.inj h] at he
      exact compile_expression_no_unwrap e s he
    · rename_i v s1 he
      split at h
      · exact absurd (compile_expression_some e s none s1 he) (by simp)
      · split at h
        · rename_i err hr
          rw [Except.error.inj h] at hr
          exact compile_args_no_unwrap rest _ hr
        · exact Except.noConfusion h
end


/-! ## Statement-level frame

A statement lowering step appends instructions only to the block that was
current on entry, appends whole new blocks after the existing ones, and
finishes with the insertion point either back where it started or inside
the newly appended region. -/

def FrameS (s s' : St) : Prop :=
  (∃ app tail, s'.blocks = modifyIdx s.blocks s.insertion (appendInstrs app) ++ tail) ∧
  s'.insertion < s'.blocks.length ∧
  (s'.insertion = s.insertion ∨ s.blocks.length ≤ s'.insertion)

theorem appendInstrs_nil : ∀ bb : BasicBlock, appendInstrs [] bb = bb := by
  intro bb
  simp [appendInstrs]

theorem appendInstrs_comp (a b : List Instr) :
    ∀ bb : BasicBlock, appendInstrs b (appendInstrs a bb) = appendInstrs (a ++ b) bb := by
  intro bb
  simp [appendInstrs]

theorem frameS_refl {s : St} (hp : s.insertion < s.blocks.length) : FrameS s s := by
  refine ⟨⟨[], [], ?_⟩, hp, .inl rfl⟩
  rw [modifyIdx_id _ _ appendInstrs_nil]
  simp

theorem frameS_of_frameE {s s' : St} (hp : s.insertion < s.blocks.length)
    (h : FrameE s s') : FrameS s s' := by
  obtain ⟨hi, a, hb⟩ := h
  have hlen : s'.blocks.length = s.blocks.length := by rw [hb, length_modifyIdx]
  exact ⟨⟨a, [], by rw [hb, List.append_nil]⟩, by omega, .inl hi⟩

theorem frameS_trans {s s1 s2 : St} (hp : s.insertion < s.blocks.length)
    (h1 : FrameS s s1) (h2 : FrameS s1 s2) : FrameS s s2 := by
  obtain ⟨⟨a, t1, hb1⟩, hl1, hd1⟩ := h1
  obtain ⟨⟨b, t2, hb2⟩, hl2, hd2⟩ := h2
  have hM : (modifyIdx s.blocks s.insertion (appendInstrs a)).length = s.blocks.length :=
    length_modifyIdx _ _ _
  have hlen1 : s1.blocks.length = s.blocks.length + t1.length := by
    rw [hb1, List.length_append, hM]
  refine ⟨?_, hl2, ?_⟩
  · rcases hd1 with hq | hq
    · refine ⟨a ++ b, t1 ++ t2, ?_⟩
      have hcg : modifyIdx s.blocks s.insertion (fun bb => appendInstrs b (appendInstrs a bb)) =
          modifyIdx s.blocks s.insertion (appendInstrs (a ++ b)) :=
        modifyIdx_congr _ _ (appendInstrs_comp a b)
      rw [hb2, hq, hb1, modifyIdx_append_left _ _ _ _ (by omega),
          modifyIdx_modifyIdx, hcg, List.append_assoc]
    · refine ⟨a, modifyIdx t1 (s1.insertion - s.blocks.length) (appendInstrs b) ++ t2, ?_⟩
      rw [hb2, hb1, modifyIdx_append_right _ _ _ _ (by omega), hM, List.append_assoc]
  · rcases hd2 with hq2 | hq2
    · rcases hd1 with hq | hq
      · exact .inl (hq2.trans hq)
      · exact .inr (by omega)
    · exact .inr (by omega)

theorem frameS_reposition {s s1 : St} (h : FrameS s s1) (q : Nat)
    (hq : s.blocks.length ≤ q) (hlt : q < s1.blocks.length) :
    FrameS s (positionAtEnd s1 q) := by
  obtain ⟨hb, _, _⟩ := h
  exact ⟨hb, hlt, .inr hq⟩

theorem frameS_buildInstr {s s1 : St} (hp : s.insertion < s.blocks.length)
    (h : FrameS s s1) (i : Instr) : FrameS s (buildInstr s1 i) :=
  frameS_trans hp h (frameS_of_frameE h.2.1 (frameE_buildInstr s1 i))

mutual
theorem compile_statement_frame : ∀ (st : Statement) (s : St) (r : Option Value)
    (s' : St), s.insertion < s.blocks.length →
    compile_statement st s = .ok (r, s') → FrameS s s' := by
  intro st s r s' hp h
  cases st with
  | block items =>
    rw [compile_statement] at h
    split at h
    · exact Except.noConfusion h
    · rename_i s1 hi
      simp only [Except.ok.injEq, Prod.mk.injEq] at h
      rw [← h.2]
      exact compile_items_frame items s s1 hp hi
  | expression e =>
    exact frameS_of_frameE hp (compile_expression_frame e s r s' h)
  | whileLoop cond body =>
    rw [compile_statement] at h
    simp only [appendBasicBlock] at h
    split at h
    · exact Except.noConfusion h
    · rename_i copt s6 hc
      split at h
      · exact Except.noConfusion h
      · rename_i c
        split at h
        · exact Except.noConfusion h
        · rename_i rb s9 hb
          simp only [Except.ok.injEq, Prod.mk.injEq] at h
          have hS5 : FrameS s (positionAtEnd (buildInstr
              { s with blocks := ((s.blocks ++ [BasicBlock.mk "condition" []]) ++
                  [BasicBlock.mk "body" []]) ++ [BasicBlock.mk "end" []] }
              (.br s.blocks.length)) s.blocks.length) := by
            refine ⟨⟨[.br s.blocks.length],
                     [BasicBlock.mk "condition" [], BasicBlock.mk "body" [], BasicBlock.mk "end" []],
                     ?_⟩, ?_, .inr (le_refl _)⟩
            · show modifyIdx (((s.blocks ++ [BasicBlock.mk "condition" []]) ++
                  [BasicBlock.mk "body" []]) ++ [BasicBlock.mk "end" []])
                  s.insertion (appendInstrs [.br s.blocks.length]) = _
              rw [modifyIdx_append_left _ _ _ _
                    (by simp only [List.length_append, List.length_cons, List.length_nil]; omega),
                  modifyIdx_append_left _ _ _ _
                    (by simp only [List.length_append, List.length_cons, List.length_nil]; omega),
                  modifyIdx_append_left _ _ _ _ hp]
              simp
            · show s.blocks.length < (modifyIdx _ _ _).length
              rw [length_modifyIdx]
              simp
          have h6 := compile_expression_frame cond _ (some c) s6 hc
          have hF6 : FrameS s s6 := frameS_trans hp hS5 (frameS_of_frameE hS5.2.1 h6)
          have hlen6 : s6.blocks.length = s.blocks.length + 3 := by
            obtain ⟨_, a1, hb6⟩ := h6
            rw [hb6, length_modifyIdx]
            show (modifyIdx _ _ _).length = _
            rw [length_modifyIdx]
            simp
          have hF7 : FrameS s (buildInstr s6
              (.condBr c (s.blocks ++ [BasicBlock.mk "condition" []]).length
                ((s.blocks ++ [BasicBlock.mk "condition" []]) ++
                  [BasicBlock.mk "body" []]).length)) :=
            frameS_buildInstr hp hF6 _
          have hF8 : FrameS s (positionAtEnd (buildInstr s6
              (.condBr c (s.blocks ++ [BasicBlock.mk "condition" []]).length
                ((s.blocks ++ [BasicBlock.mk "condition" []]) ++
                  [BasicBlock.mk "body" []]).length))
              (s.blocks ++ [BasicBlock.mk "condition" []]).length) := by
            refine frameS_reposition hF7 _ (by simp) ?_
            show _ < (modifyIdx _ _ _).length
            rw [length_modifyIdx, hlen6]
            simp only [List.length_append, List.length_cons, List.length_nil]
            omega
          have h9 := compile_statement_frame body _ rb s9 hF8.2.1 hb
          have hF9 : FrameS s s9 := frameS_trans hp hF8 h9
          have hlen9 : s.blocks.length + 3 ≤ s9.blocks.length := by
            obtain ⟨⟨a2, t2, hb9⟩, _, _⟩ := h9
            rw [hb9, List.length_append, length_modifyIdx]
            show (modifyIdx _ _ _).length + _ ≥ _
            rw [length_modifyIdx, hlen6]
            omega
          have hF10 : FrameS s (buildInstr s9 (.br s.blocks.length)) :=
            frameS_buildInstr hp hF9 _
          rw [← h.2]
          refine frameS_reposition hF10 _ (by simp) ?_
          show _ < (modifyIdx _ _ _).length
          rw [length_modifyIdx]
          simp only [List.length_append, List.length_cons, List.length_nil]
          omega
  | var => exact Except.noConfusion h
  | empty => exact Except.noConfusion h
  | ifStmt => exact Except.noConfusion h
  | doWhileLoop => exact Except.noConfusion h
  | forLoop => exact Except.noConfusion h
  | forInLoop => exact Except.noConfusion h
  | forOfLoop => exact Except.noConfusion h
  | switch => exact Except.noConfusion h
  | continueStmt => exact Except.noConfusion h
  | breakStmt => exact Except.noConfusion h
  | returnStmt => exact Except.noConfusion h
  | labelled => exact Except.noConfusion h
  | throwStmt => exact Except.noConfusion h
  | tryStmt => exact Except.noConfusion h
  | withStmt => exact Except.noConfusion h

theorem compile_items_frame : ∀ (its : StmtItems) (s : St) (s' : St),
    s.insertion < s.blocks.length → compile_items its s = .ok s' → FrameS s s' := by
  intro its s s' hp h
  cases its with
  | nil =>
    rw [compile_items] at h
    simp only [Except.ok.injEq] at h
    rw [← h]
    exact frameS_refl hp
  | consStmt st rest =>
    rw [compile_items] at h
    split at h
    · exact Except.noConfusion h
    · rename_i r1 s1 hs
      have h1 := compile_statement_frame st s r1 s1 hp hs
      have h2 := compile_items_frame rest s1 s' h1.2.1 h
      exact frameS_trans hp h1 h2
  | consDecl rest => exact Except.noConfusion h
end



/-! ## The while-loop lowering in detail -/

theorem modifyIdx_three_append (bs : List BasicBlock) (p : Nat)
    (f : BasicBlock → BasicBlock) (c0 b0 e0 : BasicBlock) (hp : p < bs.length) :
    modifyIdx (((bs ++ [c0]) ++ [b0]) ++ [e0]) p f =
      ((modifyIdx bs p f ++ [c0]) ++ [b0]) ++ [e0] := by
  rw [modifyIdx_append_left ((bs ++ [c0]) ++ [b0]) [e0] p f (by simp; omega)]
  rw [modifyIdx_append_left (bs ++ [c0]) [b0] p f (by simp; omega)]
  rw [modifyIdx_append_left bs [c0] p f hp]

theorem modifyIdx_append3_mid (M : List BasicBlock) (c0 b0 e0 : BasicBlock)
    (n : Nat) (f : BasicBlock → BasicBlock) (hn : n = M.length) :
    modifyIdx (((M ++ [c0]) ++ [b0]) ++ [e0]) n f = ((M ++ [f c0]) ++ [b0]) ++ [e0] := by
  subst hn
  rw [modifyIdx_append_left ((M ++ [c0]) ++ [b0]) [e0] M.length f (by simp)]
  rw [modifyIdx_append_left (M ++ [c0]) [b0] M.length f (by simp)]
  rw [modifyIdx_append_right M [c0] M.length f (le_refl _), Nat.sub_self]
  rfl

theorem modifyIdx_append3_body (M : List BasicBlock) (c0 b0 e0 : BasicBlock)
    (n : Nat) (f : BasicBlock → BasicBlock) (hn : n = M.length) :
    modifyIdx (((M ++ [c0]) ++ [b0]) ++ [e0]) (n + 1) f =
      ((M ++ [c0]) ++ [f b0]) ++ [e0] := by
  subst hn
  rw [modifyIdx_append_left ((M ++ [c0]) ++ [b0]) [e0] (M.length + 1) f (by simp)]
  rw [modifyIdx_append_right (M ++ [c0]) [b0] (M.length + 1) f (by simp)]
  have hz : M.length + 1 - (M ++ [c0]).length = 0 := by simp
  rw [hz]
  rfl

theorem getIdx_four_lt (M : List BasicBlock) (c0 b0 e0 : BasicBlock)
    (t : List BasicBlock) (i : Nat) (hi : i < M.length) :
    ((((M ++ [c0]) ++ [b0]) ++ [e0]) ++ t)[i]? = M[i]? := by
  rw [getIdx_append_left (((M ++ [c0]) ++ [b0]) ++ [e0]) t i (by simp; omega)]
  rw [getIdx_append_left ((M ++ [c0]) ++ [b0]) [e0] i (by simp; omega)]
  rw [getIdx_append_left (M ++ [c0]) [b0] i (by simp; omega)]
  rw [getIdx_append_left M [c0] i hi]

theorem getIdx_four_c (M : List BasicBlock) (c0 b0 e0 : BasicBlock)
    (t : List BasicBlock) (n : Nat) (hn : n = M.length) :
    ((((M ++ [c0]) ++ [b0]) ++ [e0]) ++ t)[n]? = some c0 := by
  subst hn
  rw [getIdx_append_left (((M ++ [c0]) ++ [b0]) ++ [e0]) t M.length (by simp)]
  rw [getIdx_append_left ((M ++ [c0]) ++ [b0]) [e0] M.length (by simp)]
  rw [getIdx_append_left (M ++ [c0]) [b0] M.length (by simp)]
  rw [getIdx_append_right M [c0] M.length (le_refl _), Nat.sub_self]
  rfl

theorem getIdx_four_b (M : List BasicBlock) (c0 b0 e0 : BasicBlock)
    (t : List BasicBlock) (n : Nat) (hn : n = M.length) :
    ((((M ++ [c0]) ++ [b0]) ++ [e0]) ++ t)[n + 1]? = some b0 := by
  subst hn
  rw [getIdx_append_left (((M ++ [c0]) ++ [b0]) ++ [e0]) t (M.length + 1) (by simp)]
  rw [getIdx_append_left ((M ++ [c0]) ++ [b0]) [e0] (M.length + 1) (by simp)]
  rw [getIdx_append_right (M ++ [c0]) [b0] (M.length + 1) (by simp)]
  have hz : M.length + 1 - (M ++ [c0]).length = 0 := by simp
  rw [hz]
  rfl

theorem getIdx_four_e (M : List BasicBlock) (c0 b0 e0 : BasicBlock)
    (t : List BasicBlock) (n : Nat) (hn : n = M.length) :
    ((((M ++ [c0]) ++ [b0]) ++ [e0]) ++ t)[n + 2]? = some e0 := by
  subst hn
  rw [getIdx_append_left (((M ++ [c0]) ++ [b0]) ++ [e0]) t (M.length + 2) (by simp)]
  rw [getIdx_append_right ((M ++ [c0]) ++ [b0]) [e0] (M.length + 2) (by simp)]
  have hz : M.length + 2 - ((M ++ [c0]) ++ [b0]).length = 0 := by simp
  rw [hz]
  rfl

/-- C1 (amended): lowering a while-loop appends three fresh blocks named
`condition`, `body`, `end` for the loop itself, in that order, at the end of
the root function; the block active before lowering receives an
unconditional branch to `condition`; the predicate is lowered inside
`condition`, which is terminated by a conditional branch with true going to
`body` and false to `end`; the body statement is lowered starting in `body`,
and the unconditional branch back to `condition` is emitted as the last
instruction of whatever block is current after lowering the body (`body`
itself whenever the body creates no blocks, otherwise a later block created
by the body, which then also sits after `end`); on exit the insertion point
is at `end`, which is unterminated (empty).  Nested control flow in the body
may append further blocks beyond the three. -/
theorem while_loop_lowering_spec (cond : Expression) (body : Statement) (s : St)
    (r : Option Value) (s' : St) (hp : s.insertion < s.blocks.length)
    (h : compile_statement (.whileLoop cond body) s = .ok (r, s')) :
    r = none ∧
    s'.insertion = s.blocks.length + 2 ∧
    s.blocks.length + 3 ≤ s'.blocks.length ∧
    (∃ bb, s.blocks[s.insertion]? = some bb ∧
        s'.blocks[s.insertion]? =
          some (BasicBlock.mk bb.name (bb.instrs ++ [.br s.blocks.length]))) ∧
    (∃ pre c, s'.blocks[s.blocks.length]? =
        some (BasicBlock.mk "condition"
          (pre ++ [.condBr c (s.blocks.length + 1) (s.blocks.length + 2)]))) ∧
    ((s'.blocks[s.blocks.length + 1]?).map BasicBlock.name = some "body") ∧
    s'.blocks[s.blocks.length + 2]? = some (BasicBlock.mk "end" []) ∧
    (∃ q bb2, (q = s.blocks.length + 1 ∨ s.blocks.length + 3 ≤ q) ∧
        s'.blocks[q]? = some bb2 ∧ bb2.instrs.getLast? = some (.br s.blocks.length)) := by
  rw [compile_statement] at h
  simp only [appendBasicBlock] at h
  split at h
  · exact Except.noConfusion h
  · rename_i copt s6 hc
    split at h
    · exact Except.noConfusion h
    · rename_i c
      split at h
      · exact Except.noConfusion h
      · rename_i rb s9 hb
        simp only [Except.ok.injEq, Prod.mk.injEq] at h
        obtain ⟨hr, hs'⟩ := h
        obtain ⟨hi6, a1, hb6⟩ := compile_expression_frame cond _ (some c) s6 hc
        simp only [positionAtEnd, buildInstr] at hi6 hb6
        have hMlen : (modifyIdx s.blocks s.insertion
            (appendInstrs [Instr.br s.blocks.length])).length = s.blocks.length :=
          length_modifyIdx _ _ _
        rw [modifyIdx_three_append s.blocks s.insertion _
              (BasicBlock.mk "condition" []) (BasicBlock.mk "body" []) (BasicBlock.mk "end" []) hp,
            modifyIdx_append3_mid _ _ _ _ _ _ hMlen.symm] at hb6
        have hc1 : appendInstrs a1 (BasicBlock.mk "condition" []) = BasicBlock.mk "condition" a1 := by
          simp [appendInstrs]
        rw [hc1] at hb6
        have hlen6 : s6.blocks.length = s.blocks.length + 3 := by
          rw [hb6]
          simp [hMlen]
        obtain ⟨⟨a2, t2, hb9⟩, hq2, hq3⟩ :=
          compile_statement_frame body _ rb s9
            (by
              simp only [positionAtEnd, buildInstr]
              rw [length_modifyIdx, hlen6]
              simp) hb
        simp only [positionAtEnd, buildInstr] at hb9 hq3
        rw [hi6, hb6,
            modifyIdx_append3_mid _ _ _ _ _ _ hMlen.symm] at hb9
        have hc2 : appendInstrs [Instr.condBr c (s.blocks ++ [BasicBlock.mk "condition" []]).length
              ((s.blocks ++ [BasicBlock.mk "condition" []]) ++ [BasicBlock.mk "body" []]).length]
            (BasicBlock.mk "condition" a1) =
            BasicBlock.mk "condition"
              (a1 ++ [Instr.condBr c (s.blocks.length + 1) (s.blocks.length + 2)]) := by
          simp [appendInstrs]
        rw [hc2] at hb9
        have hL1 : (s.blocks ++ [BasicBlock.mk "condition" []]).length = s.blocks.length + 1 := by
          simp
        rw [hL1, modifyIdx_append3_body _ _ _ _ _ _ hMlen.symm] at hb9
        have hb2 : appendInstrs a2 (BasicBlock.mk "body" []) = BasicBlock.mk "body" a2 := by
          simp [appendInstrs]
        rw [hb2] at hb9
        have hs'i : s'.insertion = s.blocks.length + 2 := by
          rw [← hs']
          simp [positionAtEnd]
        have hs'b : s'.blocks = modifyIdx s9.blocks s9.insertion
            (appendInstrs [Instr.br s.blocks.length]) := by
          rw [← hs']
          simp [positionAtEnd, buildInstr]
        have hq3' : s9.insertion = s.blocks.length + 1 ∨ s.blocks.length + 3 ≤ s9.insertion := by
          rcases hq3 with hq | hq
          · left; rw [hq]; simp
          · right
            rw [length_modifyIdx, hlen6] at hq
            omega
        have hlen9 : s9.blocks.length = s.blocks.length + 3 + t2.length := by
          rw [hb9]
          simp [hMlen]
          omega
        have hlen' : s'.blocks.length = s9.blocks.length := by
          rw [hs'b, length_modifyIdx]
        refine ⟨hr.symm, hs'i, by omega, ?_, ?_, ?_, ?_, ?_⟩
        · obtain ⟨bb, hbb⟩ : ∃ bb, s.blocks[s.insertion]? = some bb :=
            ⟨s.blocks[s.insertion], (List.getElem?_eq_getElem hp)⟩
          refine ⟨bb, hbb, ?_⟩
          rw [hs'b, getIdx_modifyIdx_ne _ _ _ _ (by omega), hb9,
              getIdx_four_lt _ _ _ _ _ _ (by rw [hMlen]; omega),
              getIdx_modifyIdx_self, hbb]
          simp [appendInstrs]
        · refine ⟨a1, c, ?_⟩
          rw [hs'b, getIdx_modifyIdx_ne _ _ _ _ (by omega), hb9,
              getIdx_four_c _ _ _ _ _ _ hMlen.symm]
        · have hbody : s9.blocks[s.blocks.length + 1]? = some (BasicBlock.mk "body" a2) := by
            rw [hb9, getIdx_four_b _ _ _ _ _ _ hMlen.symm]
          rcases hq3' with hq | hq
          · rw [hs'b, ← hq, getIdx_modifyIdx_self, hq, hbody]
            rfl
          · rw [hs'b, getIdx_modifyIdx_ne _ _ _ _ (by omega), hbody]
            rfl
        · rw [hs'b, getIdx_modifyIdx_ne _ _ _ _ (by omega), hb9,
              getIdx_four_e _ _ _ _ _ _ hMlen.symm]
        · refine ⟨s9.insertion, ?_⟩
          obtain ⟨bbq, hbbq⟩ : ∃ bbq, s9.blocks[s9.insertion]? = some bbq :=
            ⟨s9.blocks[s9.insertion], (List.getElem?_eq_getElem hq2)⟩
          refine ⟨appendInstrs [Instr.br s.blocks.length] bbq, hq3', ?_, ?_⟩
          · rw [hs'b, getIdx_modifyIdx_self, hbbq]
            rfl
          · show (bbq.instrs ++ [Instr.br s.blocks.length]).getLast? = _
            rw [getLast_append_singleton]



/-! ## Unfolding the call arm -/

theorem compile_call_none (name : String) (args : ExprList) (s : St)
    (vs : List Value) (s1 : St)
    (ha : compile_args args s = .ok (vs, s1))
    (hg : getNamedFunction s1.funcs name = none) :
    compile_expression (.call (.identifier name) args) s =
      .ok (some (.callResult s1.nextId .i32),
           buildInstr { s1 with
               funcs := s1.funcs ++ [⟨name, Ty.func .i32 (vs.map Value.typeOf), .external⟩],
               nextId := s1.nextId + 1 }
             (.call s1.funcs.length (Ty.func .i32 (vs.map Value.typeOf)) vs s1.nextId)) := by
  rw [compile_expression, ha]
  dsimp only
  rw [hg]

theorem compile_call_some (name : String) (args : ExprList) (s : St)
    (vs : List Value) (s1 : St) (i : Nat)
    (ha : compile_args args s = .ok (vs, s1))
    (hg : getNamedFunction s1.funcs name = some i) :
    compile_expression (.call (.identifier name) args) s =
      .ok (some (.callResult s1.nextId .i32),
           buildInstr { s1 with nextId := s1.nextId + 1 }
             (.call i (Ty.func .i32 (vs.map Value.typeOf)) vs s1.nextId)) := by
  rw [compile_expression, ha]
  dsimp only
  rw [hg]

/-! ## The claims -/

/-- C1 (counterexample): lowering one while-loop whose body is itself a
while-loop appends six blocks, not exactly three, and the unconditional
branch back to the outer `condition` (block 1) is emitted in the inner `end`
block (block 6), not in the outer `body` block (block 2, which instead
branches to the inner `condition`, block 4). -/
theorem while_three_blocks_cex :
    compile_statement (.whileLoop (.literal (.bool true))
        (.whileLoop (.literal (.bool true)) (.expression (.literal (.int 1))))) initState =
      .ok (none, ⟨[⟨"main", .func .void [], .internalDefault⟩],
        [⟨"entry", [.br 1]⟩,
         ⟨"condition", [.condBr (.constInt .i1 1) 2 3]⟩,
         ⟨"body", [.br 4]⟩,
         ⟨"end", []⟩,
         ⟨"condition", [.condBr (.constInt .i1 1) 5 6]⟩,
         ⟨"body", [.br 4]⟩,
         ⟨"end", [.br 1]⟩], [], 3, 0⟩) ∧
    initState.blocks.length + 3 ≠ 7 :=
  ⟨rfl, by decide⟩

/-- The module state after lowering `while (true) 1;` from the initial
state. -/
def sAfterWhile : St :=
  ⟨[⟨"main", .func .void [], .internalDefault⟩],
   [⟨"entry", [.br 1]⟩,
    ⟨"condition", [.condBr (.constInt .i1 1) 2 3]⟩,
    ⟨"body", [.br 1]⟩,
    ⟨"end", []⟩], [], 3, 0⟩

/-- Witness for the amended while-loop theorem at `while (true) 1;`. -/
theorem while_loop_lowering_spec_witness :
    initState.insertion < initState.blocks.length ∧
    sAfterWhile.insertion = initState.blocks.length + 2 ∧
    sAfterWhile.blocks[initState.blocks.length + 2]? = some (BasicBlock.mk "end" []) := by
  have H := while_loop_lowering_spec (.literal (.bool true))
      (.expression (.literal (.int 1))) initState none sAfterWhile (by decide) rfl
  exact ⟨by decide, H.2.1, H.2.2.2.2.2.2.1⟩

/-- C2: for every call expression the function type of the emitted call is
synthesized from the current call's argument types (lowered left-to-right by
`compile_args`) with a fixed 32-bit integer return; an undeclared callee is
declared with exactly that signature and external linkage and recorded in
the module; a declared callee's handle is reused while the emitted call's
signature is still the one re-synthesized from this call site. -/
theorem call_signature_synthesis :
    ∀ (name : String) (args : ExprList) (s : St) (vs : List Value) (s1 : St),
      compile_args args s = .ok (vs, s1) →
      (getNamedFunction s1.funcs name = none →
        compile_expression (.call (.identifier name) args) s =
          .ok (some (.callResult s1.nextId .i32),
               buildInstr { s1 with
                   funcs := s1.funcs ++ [⟨name, Ty.func .i32 (vs.map Value.typeOf), .external⟩],
                   nextId := s1.nextId + 1 }
                 (.call s1.funcs.length (Ty.func .i32 (vs.map Value.typeOf)) vs s1.nextId))) ∧
      (∀ i, getNamedFunction s1.funcs name = some i →
        compile_expression (.call (.identifier name) args) s =
          .ok (some (.callResult s1.nextId .i32),
               buildInstr { s1 with nextId := s1.nextId + 1 }
                 (.call i (Ty.func .i32 (vs.map Value.typeOf)) vs s1.nextId))) :=
  fun name args s vs s1 ha =>
    ⟨fun hg => compile_call_none name args s vs s1 ha hg,
     fun i hg => compile_call_some name args s vs s1 i ha hg⟩

/-- Witness for C2: `puts(7)` from the initial state declares `puts` with
signature `(i32) -> i32` and emits a call with that synthesized type. -/
theorem call_signature_synthesis_witness :
    compile_args (.cons (.literal (.int 7)) .nil) initState =
      .ok ([.constInt .i32 7], initState) ∧
    compile_expression (.call (.identifier "puts") (.cons (.literal (.int 7)) .nil)) initState =
      .ok (some (.callResult 0 .i32),
           ⟨[⟨"main", .func .void [], .internalDefault⟩, ⟨"puts", .func .i32 [.i32], .external⟩],
            [⟨"entry", [.call 1 (.func .i32 [.i32]) [.constInt .i32 7] 0]⟩], [], 0, 1⟩) := by
  have H := call_signature_synthesis "puts" (.cons (.literal (.int 7)) .nil) initState
      [.constInt .i32 7] initState rfl
  exact ⟨rfl, H.1 rfl⟩

/-- C3: each supported literal kind lowers to a constant of exactly the
mapped IR type holding exactly the source value: a string to a pointer to a
fresh null-terminated global buffer holding the text, a number to a 64-bit
floating constant carrying the payload unchanged, an integer to a 32-bit
constant whose bits read back (as a signed 32-bit value) to the source
integer, and a boolean to a 1-bit constant equal to 1 for true and 0 for
false. -/
theorem literal_lowering_exact :
    (∀ (bytes : List Nat) (s : St), bytes.contains 0 = false →
      compile_expression (.literal (.string bytes)) s =
        .ok (some (.strPtr s.globals.length),
             { s with globals := s.globals ++ [bytes ++ [0]] }) ∧
      Value.typeOf (.strPtr s.globals.length) = .ptr) ∧
    (∀ (bits : Nat) (s : St),
      compile_expression (.literal (.num bits)) s = .ok (some (.constReal bits), s) ∧
      Value.typeOf (.constReal bits) = .double) ∧
    (∀ (n : Int) (s : St), -2147483648 ≤ n → n < 2147483648 →
      compile_expression (.literal (.int n)) s =
        .ok (some (.constInt .i32 ((n % 4294967296).toNat)), s) ∧
      asSigned32 ((n % 4294967296).toNat) = n) ∧
    (∀ (b : Bool) (s : St),
      compile_expression (.literal (.bool b)) s =
        .ok (some (.constInt .i1 (if b then 1 else 0)), s) ∧
      Value.typeOf (.constInt .i1 (if b then 1 else 0)) = .i1) := by
  refine ⟨?_, ?_, ?_, ?_⟩
  · intro bytes s h
    refine ⟨?_, rfl⟩
    rw [compile_expression, create_string_literal, if_neg (by rw [h]; exact Bool.false_ne_true)]
  · intro bits s
    exact ⟨rfl, rfl⟩
  · intro n s h1 h2
    constructor
    · rw [compile_expression]
      have hmod : intAsU64 n % 4294967296 = (n % 4294967296).toNat := by
        rw [intAsU64]
        omega
      rw [hmod]
    · rw [asSigned32]
      split <;> omega
  · intro b s
    exact ⟨rfl, rfl⟩

/-- Witness for C3 at the concrete literals `"h"`, `2.0` (as a payload),
`7`, and `true`. -/
theorem literal_lowering_exact_witness :
    (compile_expression (.literal (.string [104])) initState =
      .ok (some (.strPtr initState.globals.length),
           { initState with globals := initState.globals ++ [[104] ++ [0]] }) ∧
     Value.typeOf (.strPtr initState.globals.length) = .ptr) ∧
    asSigned32 (((7 : Int) % 4294967296).toNat) = 7 ∧
    (compile_expression (.literal (.bool true)) initState =
      .ok (some (.constInt .i1 (if true then 1 else 0)), initState) ∧
     Value.typeOf (.constInt .i1 (if true then 1 else 0)) = .i1) :=
  ⟨literal_lowering_exact.1 [104] initState (by decide),
   (literal_lowering_exact.2.2.1 7 initState (by decide) (by decide)).2,
   literal_lowering_exact.2.2.2 true initState⟩

/-- C4: calling the same (previously undeclared) external name twice leaves
exactly one declaration of that name in the module: the first call creates
it, the second call finds it by name, reuses the same function index for
the emitted call instruction, and adds no second declaration. -/
theorem call_decl_idempotence :
    ∀ (name : String) (args1 args2 : ExprList) (s0 : St)
      (v1 : Option Value) (s1 : St) (v2 : Option Value) (s2 : St)
      (vs1 : List Value) (t1 : St) (vs2 : List Value) (t2 : St),
      s0.insertion < s0.blocks.length →
      countName s0.funcs name = 0 →
      compile_args args1 s0 = .ok (vs1, t1) →
      compile_args args2 s1 = .ok (vs2, t2) →
      vs1.map Value.typeOf = vs2.map Value.typeOf →
      compile_expression (.call (.identifier name) args1) s0 = .ok (v1, s1) →
      compile_expression (.call (.identifier name) args2) s1 = .ok (v2, s2) →
      countName s1.funcs name = 1 ∧
      countName s2.funcs name = 1 ∧
      (∃ i, getNamedFunction s1.funcs name = some i ∧
            getNamedFunction s2.funcs name = some i ∧
            (∃ bb, s2.blocks[s1.insertion]? = some bb ∧
              bb.instrs.getLast? =
                some (.call i (Ty.func .i32 (vs2.map Value.typeOf)) vs2 t2.nextId))) := by
  intro name args1 args2 s0 v1 s1 v2 s2 vs1 t1 vs2 t2 hp0 hc0 hA1 hA2 hsig h1 h2
  -- effect of the first call on the function list
  obtain ⟨⟨ext1, hext1⟩, hcnt1⟩ := compile_args_funcs args1 s0 vs1 t1 hA1
  have hct1 : countName t1.funcs name = 0 ∨ countName t1.funcs name = 1 := by
    rcases hcnt1 name with hq | ⟨hq0, hq1⟩
    · left; omega
    · right; exact hq1
  have hfix : countName s1.funcs name = 1 ∧ ∃ i0, getNamedFunction s1.funcs name = some i0 := by
    cases hg1 : getNamedFunction t1.funcs name with
    | none =>
      have e1 := compile_call_none name args1 s0 vs1 t1 hA1 hg1
      rw [e1] at h1
      simp only [Except.ok.injEq, Prod.mk.injEq] at h1
      have hfuncs1 : s1.funcs =
          t1.funcs ++ [⟨name, Ty.func .i32 (vs1.map Value.typeOf), .external⟩] := by
        rw [← h1.2]
        rfl
      constructor
      · rw [hfuncs1, countName_append, gnf_none_count _ _ hg1, countName_cons]
        simp [countName]
      · exact ⟨t1.funcs.length, by rw [hfuncs1]; exact gnf_append_self _ _ _ _ hg1⟩
    | some j =>
      have e1 := compile_call_some name args1 s0 vs1 t1 j hA1 hg1
      rw [e1] at h1
      simp only [Except.ok.injEq, Prod.mk.injEq] at h1
      have hfuncs1 : s1.funcs = t1.funcs := by
        rw [← h1.2]
        rfl
      have hcpos : countName t1.funcs name ≠ 0 := by
        intro hz
        rw [count_zero_gnf _ _ hz] at hg1
        exact Option.noConfusion hg1
      constructor
      · rw [hfuncs1]; omega
      · exact ⟨j, by rw [hfuncs1]; exact hg1⟩
  obtain ⟨hcount1, i0, hgn1⟩ := hfix
  -- effect of the second call's argument lowering
  obtain ⟨⟨ext2, hext2⟩, hcnt2⟩ := compile_args_funcs args2 s1 vs2 t2 hA2
  have hct2 : countName t2.funcs name = 1 := by
    rcases hcnt2 name with hq | ⟨hq0, hq1⟩
    · omega
    · omega
  have hgn2 : getNamedFunction t2.funcs name = some i0 := by
    rw [hext2]
    exact gnf_append_some _ _ _ _ hgn1
  have e2 := compile_call_some name args2 s1 vs2 t2 i0 hA2 hgn2
  rw [e2] at h2
  simp only [Except.ok.injEq, Prod.mk.injEq] at h2
  have hfuncs2 : s2.funcs = t2.funcs := by
    rw [← h2.2]
    rfl
  refine ⟨hcount1, by rw [hfuncs2]; exact hct2, i0, hgn1,
          by rw [hfuncs2]; exact hgn2, ?_⟩
  -- the emitted instruction reuses the declared handle
  have hins1 : s1.insertion = s0.insertion ∧ s1.blocks.length = s0.blocks.length := by
    obtain ⟨hi, a, hbk⟩ := compile_expression_frame _ s0 v1 s1 h1
    exact ⟨hi, by rw [hbk, length_modifyIdx]⟩
  obtain ⟨hiT2, a2, hbT2⟩ := compile_args_frame args2 s1 vs2 t2 hA2
  have hblk2 : s2.blocks = modifyIdx t2.blocks t2.insertion
      (appendInstrs [Instr.call i0 (Ty.func .i32 (vs2.map Value.typeOf)) vs2 t2.nextId]) := by
    rw [← h2.2]
    rfl
  have hlt : s1.insertion < t2.blocks.length := by
    rw [hbT2, length_modifyIdx]
    omega
  obtain ⟨bb0, hbb0⟩ : ∃ bb0, t2.blocks[s1.insertion]? = some bb0 :=
    ⟨t2.blocks[s1.insertion], List.getElem?_eq_getElem hlt⟩
  refine ⟨appendInstrs [Instr.call i0 (Ty.func .i32 (vs2.map Value.typeOf)) vs2 t2.nextId] bb0,
          ?_, ?_⟩
  · rw [hblk2, ← hiT2, getIdx_modifyIdx_self, hiT2, hbb0]
    rfl
  · show (bb0.instrs ++ [Instr.call i0 (Ty.func .i32 (vs2.map Value.typeOf)) vs2 t2.nextId]).getLast? = _
    rw [getLast_append_singleton]

/-- The module state after lowering `f(1)` from the initial state. -/
def sOneCall : St :=
  ⟨[⟨"main", .func .void [], .internalDefault⟩, ⟨"f", .func .i32 [.i32], .external⟩],
   [⟨"entry", [.call 1 (.func .i32 [.i32]) [.constInt .i32 1] 0]⟩], [], 0, 1⟩

/-- The module state after lowering `f(1); f(2)` from the initial state. -/
def sTwoCalls : St :=
  ⟨[⟨"main", .func .void [], .internalDefault⟩, ⟨"f", .func .i32 [.i32], .external⟩],
   [⟨"entry", [.call 1 (.func .i32 [.i32]) [.constInt .i32 1] 0,
               .call 1 (.func .i32 [.i32]) [.constInt .i32 2] 1]⟩], [], 0, 2⟩

/-- Witness for C4 at `f(1); f(2)`. -/
theorem call_decl_idempotence_witness :
    countName sOneCall.funcs "f" = 1 ∧ countName sTwoCalls.funcs "f" = 1 := by
  have H := call_decl_idempotence "f" (.cons (.literal (.int 1)) .nil)
      (.cons (.literal (.int 2)) .nil) initState
      (some (.callResult 0 .i32)) sOneCall (some (.callResult 1 .i32)) sTwoCalls
      [.constInt .i32 1] initState [.constInt .i32 2] sOneCall
      (by decide) (by decide) rfl rfl rfl rfl rfl
  exact ⟨H.1, H.2.1⟩

/-- C5: every AST node kind outside the supported subset fails with
`UnsupportedConstruct` immediately where it is encountered, and a lowering
failure aborts the whole run before any object file is emitted. -/
theorem unsupported_constructs_fatal :
    (∀ s, compile_statement .ifStmt s = .error .unsupportedConstruct) ∧
    (∀ s, compile_statement .forLoop s = .error .unsupportedConstruct) ∧
    (∀ s, compile_expression .binary s = .error .unsupportedConstruct) ∧
    (∀ nm s, compile_expression (.identifier nm) s = .error .unsupportedConstruct) ∧
    (∀ s, compile_expression (.literal .nullLit) s = .error .unsupportedConstruct) ∧
    (∀ s, compile_expression (.literal .undefined) s = .error .unsupportedConstruct) ∧
    (∀ s, compile_expression (.literal .bigInt) s = .error .unsupportedConstruct) ∧
    (∀ rest s, compile_items (.consDecl rest) s = .error .unsupportedConstruct) ∧
    (∀ s, compile_module_item .decl s = .error .unsupportedConstruct) ∧
    (∀ s, compile_module_item .importDeclaration s = .error .unsupportedConstruct) ∧
    (∀ s, compile_module_item .exportDeclaration s = .error .unsupportedConstruct) ∧
    (∀ (args : Cli) (w : World) (items : List ModuleItem) (e : Err),
      compile_module_items items initState = .error e →
      mainRun args w items = .panicked e) :=
  ⟨fun _ => rfl, fun _ => rfl, fun _ => rfl, fun _ _ => rfl, fun _ => rfl, fun _ => rfl,
   fun _ => rfl, fun _ _ => rfl, fun _ => rfl, fun _ => rfl, fun _ => rfl,
   fun args w items e h => by simp [mainRun, h]⟩

/-- Witness for C5: a lone `if` statement panics the whole run. -/
theorem unsupported_constructs_fatal_witness :
    mainRun ⟨⟨"a", some "js"⟩, none, none, none, false⟩
        ⟨"t", fun _ => true, false, true, true⟩ [.stmt .ifStmt] =
      .panicked .unsupportedConstruct :=
  unsupported_constructs_fatal.2.2.2.2.2.2.2.2.2.2.2 _ _ _ _ rfl

/-- C6: a call whose callee is not a plain identifier fails fatally with
`InvalidCallTarget`; no state (and hence no call instruction) survives. -/
theorem non_identifier_callee_fatal :
    ∀ (callee : Expression) (args : ExprList) (s : St),
      callee.isIdentifier = false →
      compile_expression (.call callee args) s = .error .invalidCallTarget := by
  intro callee args s h
  cases callee <;> try rfl
  rw [Expression.isIdentifier] at h
  exact Bool.noConfusion h

/-- Witness for C6 at a property-access callee. -/
theorem non_identifier_callee_fatal_witness :
    Expression.isIdentifier .propertyAccess = false ∧
    compile_expression (.call .propertyAccess .nil) initState = .error .invalidCallTarget :=
  ⟨rfl, non_identifier_callee_fatal .propertyAccess .nil initState rfl⟩

/-- C7: a verifier failure only toggles the printed diagnostic: the exit
status, the emitted object, the linker invocation and the final module are
identical whether or not verification fails, so a verification failure alone
never causes a non-zero exit and never stops emission. -/
theorem verification_failure_nonfatal :
    ∀ (args : Cli) (w : World) (st : St),
      (runLowered args { w with verifyFails := true } st).exit =
        (runLowered args { w with verifyFails := false } st).exit ∧
      (runLowered args { w with verifyFails := true } st).emittedObject =
        (runLowered args { w with verifyFails := false } st).emittedObject ∧
      (runLowered args { w with verifyFails := true } st).linkerCmd =
        (runLowered args { w with verifyFails := false } st).linkerCmd ∧
      (runLowered args { w with verifyFails := true } st).finalModule =
        (runLowered args { w with verifyFails := false } st).finalModule ∧
      (runLowered args { w with verifyFails := true } st).verifierMessagePrinted = true := by
  intro args w st
  simp only [runLowered]
  cases htr : w.targetResolves (args.target.getD w.defaultTriple) <;>
    cases hem : w.emitSucceeds <;>
      cases hl : args.linker <;>
        cases hls : w.linkerSucceeds <;>
          simp [htr, hem, hls, hl]

/-- C8 (counterexample): with a defaulted output path, input `a.js` and
linker `cc`, the object file is emitted to `a.o` but the linker is invoked
on `a.out` — not on the emitted object's path. -/
theorem linker_path_cex :
    (runLowered ⟨⟨"a", some "js"⟩, none, none, some "cc", false⟩
        ⟨"t", fun _ => true, false, true, true⟩ initState).emittedObject =
      some ⟨"a", some "o"⟩ ∧
    (runLowered ⟨⟨"a", some "js"⟩, none, none, some "cc", false⟩
        ⟨"t", fun _ => true, false, true, true⟩ initState).linkerCmd =
      some ("cc", ["a.out", "-o", "a.out"]) ∧
    FilePath'.render ⟨"a", some "o"⟩ ≠ "a.out" :=
  ⟨rfl, rfl, by decide⟩

/-- C8 (amended): when a linker is specified and target resolution and
emission succeed, the linker is invoked with one path as both input and
`-o` output; that path is the explicit output path when one was given (and
then coincides with the emitted object, which is overwritten in place), but
when the output path was defaulted it is the input path with extension
`out`, while the object was emitted to the input path with extension `o`;
a non-zero linker exit is fatal. -/
theorem linker_invocation_spec :
    ∀ (args : Cli) (w : World) (st : St) (l : String),
      args.linker = some l →
      w.targetResolves (args.target.getD w.defaultTriple) = true →
      w.emitSucceeds = true →
      (runLowered args w st).emittedObject =
        some (args.output_file.getD (args.input_file.setExtension "o")) ∧
      (runLowered args w st).linkerCmd =
        some (l, [(args.output_file.getD (args.input_file.setExtension "out")).render, "-o",
                  (args.output_file.getD (args.input_file.setExtension "out")).render]) ∧
      (∀ p, args.output_file = some p →
        args.output_file.getD (args.input_file.setExtension "out") = p ∧
        args.output_file.getD (args.input_file.setExtension "o") = p) ∧
      (args.output_file = none →
        args.output_file.getD (args.input_file.setExtension "out") =
          args.input_file.setExtension "out" ∧
        args.output_file.getD (args.input_file.setExtension "o") =
          args.input_file.setExtension "o") ∧
      (w.linkerSucceeds = false →
        (runLowered args w st).exit = .error "Failed to link object file") ∧
      (w.linkerSucceeds = true → (runLowered args w st).exit = .ok ()) := by
  intro args w st l hl htr hem
  cases hls : w.linkerSucceeds <;>
    cases ho : args.output_file <;>
      simp [runLowered, htr, hem, hl, hls, ho]

/-- Witness for the amended C8 with an explicit output path `b.o`. -/
theorem linker_invocation_spec_witness :
    (⟨⟨"a", some "js"⟩, some ⟨"b", some "o"⟩, none, some "cc", false⟩ : Cli).linker =
      some "cc" ∧
    (runLowered ⟨⟨"a", some "js"⟩, some ⟨"b", some "o"⟩, none, some "cc", false⟩
        ⟨"t", fun _ => true, false, true, true⟩ initState).linkerCmd =
      some ("cc", ["b.o", "-o", "b.o"]) := by
  have H := linker_invocation_spec
      ⟨⟨"a", some "js"⟩, some ⟨"b", some "o"⟩, none, some "cc", false⟩
      ⟨"t", fun _ => true, false, true, true⟩ initState "cc" rfl rfl rfl
  exact ⟨rfl, H.2.1⟩

/-- C9: `compile_expression` never returns the no-value outcome — every
normal return carries `some` value — and consequently neither
`compile_expression` nor the argument loop `compile_args` can ever abort
with the unwrap panic. -/
theorem compile_expression_total :
    (∀ (e : Expression) (s : St) (v : Option Value) (s' : St),
      compile_expression e s = .ok (v, s') → v.isSome = true) ∧
    (∀ (e : Expression) (s : St), compile_expression e s ≠ .error .unwrapPanic) ∧
    (∀ (es : ExprList) (s : St), compile_args es s ≠ .error .unwrapPanic) :=
  ⟨compile_expression_some, compile_expression_no_unwrap, compile_args_no_unwrap⟩

/-- Witness for C9 at the literal `true` and the empty argument list. -/
theorem compile_expression_total_witness :
    (some (Value.constInt .i1 1)).isSome = true ∧
    compile_args .nil initState ≠ .error .unwrapPanic :=
  ⟨compile_expression_total.1 (.literal (.bool true)) initState
      (some (.constInt .i1 1)) initState rfl,
   compile_expression_total.2.2 .nil initState⟩

/-- C10: a string literal with an interior NUL byte aborts lowering (the
C-string conversion panics) and produces no pointer; any other string gets a
freshly allocated null-terminated global buffer on every lowering, so
lowering the same text twice yields pointers to two distinct globals. -/
theorem string_literal_nul_fresh :
    (∀ (bytes : List Nat) (s : St), bytes.contains 0 = true →
      compile_expression (.literal (.string bytes)) s = .error .nulInString) ∧
    (∀ (bytes : List Nat) (s : St), bytes.contains 0 = false →
      compile_expression (.literal (.string bytes)) s =
        .ok (some (.strPtr s.globals.length),
             { s with globals := s.globals ++ [bytes ++ [0]] })) ∧
    (∀ (bytes : List Nat) (s : St) (v1 : Option Value) (s1 : St),
      bytes.contains 0 = false →
      compile_expression (.literal (.string bytes)) s = .ok (v1, s1) →
      v1 = some (.strPtr s.globals.length) ∧
      compile_expression (.literal (.string bytes)) s1 =
        .ok (some (.strPtr (s.globals.length + 1)),
             { s1 with globals := s1.globals ++ [bytes ++ [0]] }) ∧
      s.globals.length ≠ s.globals.length + 1) := by
  have hok : ∀ (bytes : List Nat) (s : St), bytes.contains 0 = false →
      compile_expression (.literal (.string bytes)) s =
        .ok (some (.strPtr s.globals.length),
             { s with globals := s.globals ++ [bytes ++ [0]] }) := by
    intro bytes s h
    rw [compile_expression, create_string_literal, if_neg (by rw [h]; exact Bool.false_ne_true)]
  refine ⟨?_, hok, ?_⟩
  · intro bytes s h
    rw [compile_expression, create_string_literal, if_pos h]
  · intro bytes s v1 s1 h hv
    rw [hok bytes s h] at hv
    simp only [Except.ok.injEq, Prod.mk.injEq] at hv
    have hs1g : s1.globals = s.globals ++ [bytes ++ [0]] := by
      rw [← hv.2]
    have hlen : s1.globals.length = s.globals.length + 1 := by
      rw [hs1g]
      simp
    refine ⟨hv.1.symm, ?_, by omega⟩
    rw [hok bytes s1 h, hlen]

/-- Witness for C10: `"\0h"` aborts; `"h"` lowers to a fresh global. -/
theorem string_literal_nul_fresh_witness :
    compile_expression (.literal (.string [0, 104])) initState = .error .nulInString ∧
    compile_expression (.literal (.string [104])) initState =
      .ok (some (.strPtr 0), { initState with globals := [[104, 0]] }) :=
  ⟨string_literal_nul_fresh.1 [0, 104] initState (by decide),
   string_literal_nul_fresh.2.1 [104] initState (by decide)⟩

end Jscc
